import Mathlib

/-!
Verification of the diataxis-classifier pipeline (src/classifier.py).

Shallow embedding conventions:
* Python strings are modelled as `List Char`; a Lean string literal `s`
  enters the model as `s.data`.
* Fallible Python code (raising / try-except) is modelled with `Except`
  and `Option`; effectful stages of the pipeline (filesystem, network)
  are supplied as explicit environment functions.
* Python dicts are modelled as insertion-ordered association lists with
  the update-in-place / append-if-absent discipline of CPython dicts.
* `json.loads` (a Python stdlib collaborator, not repository code) is
  modelled by `json_loads` below: a recursive-descent decoder covering
  objects, arrays, strings with the common single-character escapes,
  integer numbers, `true`/`false`/`null`, insisting (like `json.loads`)
  that no non-whitespace input remains.  Floating-point numbers and
  `\u` escapes are outside the fragment exercised by any theorem here.
-/

/-! ## Character and list utilities -/

/-- The character `{` (written via its code point). -/
def lbrace : Char := Char.ofNat 123

/-- The character `}` (written via its code point). -/
def rbrace : Char := Char.ofNat 125

/-- `lstartsWith p cs` is Python's `cs.startswith(p)` on char lists. -/
def lstartsWith : List Char → List Char → Bool
  | [], _ => true
  | _ :: _, [] => false
  | p :: ps, c :: cs => p = c && lstartsWith ps cs

/-- `hasSub needle hay` is Python's `needle in hay` substring test. -/
def hasSub (needle : List Char) : List Char → Bool
  | [] => decide (needle = [])
  | c :: cs => lstartsWith needle (c :: cs) || hasSub needle cs

/-- Python's `s.find(ch)` helper: current index accumulated in `i`. -/
def pyFindAux : List Char → Char → Int → Int
  | [], _, _ => -1
  | c :: cs, ch, i => if c = ch then i else pyFindAux cs ch (i + 1)

/-- Python's `s.find(ch)`: index of the first occurrence, `-1` if absent. -/
def pyFind (cs : List Char) (ch : Char) : Int := pyFindAux cs ch 0

/-- Python's `s.rfind(ch)` helper: best match so far in `best`. -/
def pyRfindAux : List Char → Char → Int → Int → Int
  | [], _, _, best => best
  | c :: cs, ch, i, best => pyRfindAux cs ch (i + 1) (if c = ch then i else best)

/-- Python's `s.rfind(ch)`: index of the last occurrence, `-1` if absent. -/
def pyRfind (cs : List Char) (ch : Char) : Int := pyRfindAux cs ch 0 (-1)

/-- Python's `s[a:b]` for the non-negative indices used in the source. -/
def pySlice (cs : List Char) (a b : Int) : List Char :=
  (cs.drop a.toNat).take (b.toNat - a.toNat)

/-- CPython dict assignment `d[k] = v` on an insertion-ordered
association list: an existing key keeps its position and gets the new
value, a new key is appended at the end. -/
def dictUpd {α : Type} [DecidableEq α] {β : Type} (d : List (α × β)) (k : α) (v : β) :
    List (α × β) :=
  if d.any (fun p => decide (p.1 = k)) then
    d.map (fun p => if p.1 = k then (k, v) else p)
  else d ++ [(k, v)]

/-- Number of entries of the association list `d` carrying key `k`. -/
def countKey {α : Type} [DecidableEq α] {β : Type} (d : List (α × β)) (k : α) : Nat :=
  (d.filter (fun p => decide (p.1 = k))).length

/-- Lookup in an insertion-ordered association list (Python `d[k]`). -/
def dlookup {α : Type} [DecidableEq α] {β : Type} : List (α × β) → α → Option β
  | [], _ => none
  | (k, v) :: rest, f => if f = k then some v else dlookup rest f

/-- Index of the last occurrence of `f` in `files` (meaningful when
`f ∈ files`). -/
def lastIdxOf {α : Type} [DecidableEq α] : List α → α → Nat
  | [], _ => 0
  | _ :: xs, f => if f ∈ xs then lastIdxOf xs f + 1 else 0

/-! ## Navigation Resolver (classifier.py lines 101-128)

`load_mkdocs_nav` loads the YAML config and runs the nested helper
`extract_files` over the `nav` value, accumulating into `nav_files`.
The YAML value universe relevant to `extract_files` is: strings, lists,
string-keyed mappings, and any other scalar (ignored by the code); it is
embedded as the tagged tree `Nav`.  The accumulating mutation
`nav_files.append(...)` is rendered by returning the appended list. -/

inductive Nav where
  | str (s : List Char)
  | list (items : List Nav)
  | dict (entries : List (List Char × Nav))
  | other

/-- `value.startswith("http://") or value.startswith("https://")`
(classifier.py line 120). -/
def isExternal (cs : List Char) : Bool :=
  lstartsWith ("http://".data) cs || lstartsWith ("https://".data) cs

/-- `re.split(r"#", value)[0]` (classifier.py line 122): the text before
the first `#`. -/
def stripFrag (cs : List Char) : List Char := cs.takeWhile (fun c => c != '#')

mutual

/-- `extract_files` (classifier.py lines 113-125).  A dict iterates its
items: a list value recurses into each element, a string value is either
an external link -- in which case the Python code executes `return`,
abandoning the REST of the dict's items as well -- or is appended with
its fragment stripped; any other value is skipped.  A list recurses into
each element; a bare string or other scalar item appends nothing. -/
def extract_files : Nav → List (List Char)
  | .str _ => []
  | .other => []
  | .list items => extractList items
  | .dict entries => extractDict entries

/-- The `for v in item: extract_files(v)` loop over a list value. -/
def extractList : List Nav → List (List Char)
  | [] => []
  | x :: xs => extract_files x ++ extractList xs

/-- The `for key, value in item.items()` loop; the external-link branch
returns `[]` because the Python `return` exits the whole loop. -/
def extractDict : List (List Char × Nav) → List (List Char)
  | [] => []
  | (_, v) :: rest =>
    match v with
    | .list items => extractList items ++ extractDict rest
    | .str s => if isExternal s then [] else stripFrag s :: extractDict rest
    | .dict _ => extractDict rest
    | .other => extractDict rest
end

mutual

/-- Modelled from the spec: the Navigation Resolver of spec section 4.2,
which discards an external-link leaf and CONTINUES with the remaining
entries of the same mapping node ("if it begins with an HTTP/HTTPS
scheme prefix ... it is discarded"); identical to `extract_files`
otherwise.  Used to compare the code against the spec's words. -/
def specResolveNavigation : Nav → List (List Char)
  | .str _ => []
  | .other => []
  | .list items => specResolveList items
  | .dict entries => specResolveDict entries

/-- Sequence traversal of the spec's resolver. -/
def specResolveList : List Nav → List (List Char)
  | [] => []
  | x :: xs => specResolveNavigation x ++ specResolveList xs

/-- Mapping traversal of the spec's resolver: an external link is
skipped, the rest of the mapping is still processed. -/
def specResolveDict : List (List Char × Nav) → List (List Char)
  | [] => []
  | (_, v) :: rest =>
    match v with
    | .list items => specResolveList items ++ specResolveDict rest
    | .str s =>
      if isExternal s then specResolveDict rest
      else stripFrag s :: specResolveDict rest
    | .dict _ => specResolveDict rest
    | .other => specResolveDict rest
end

/-! ## Response Interpreter (classifier.py lines 210-219) -/

/-- JSON values as produced by the modelled `json.loads`. -/
inductive JsonVal where
  | str (s : List Char)
  | num (n : Int)
  | bool (b : Bool)
  | null
  | arr (elems : List JsonVal)
  | obj (members : List (List Char × JsonVal))

/-- JSON whitespace accepted between tokens. -/
def isJsonWs (c : Char) : Bool := c = ' ' || c = '\t' || c = '\n' || c = '\r'

/-- Skip JSON whitespace. -/
def skipWs (cs : List Char) : List Char := cs.dropWhile isJsonWs

/-- Decimal digit test. -/
def isDigitc (c : Char) : Bool := '0' ≤ c && c ≤ '9'

/-- Value of a digit run, most significant first. -/
def natOfDigits : List Char → Nat → Nat
  | [], acc => acc
  | c :: cs, acc => natOfDigits cs (acc * 10 + (c.toNat - '0'.toNat))

/-- Single-character JSON escapes. -/
def unescapeChar (c : Char) : Option Char :=
  if c = '"' then some '"'
  else if c = '\\' then some '\\'
  else if c = '/' then some '/'
  else if c = 'n' then some '\n'
  else if c = 't' then some '\t'
  else if c = 'r' then some '\r'
  else if c = 'b' then some (Char.ofNat 8)
  else if c = 'f' then some (Char.ofNat 12)
  else none

/-- JSON string body after the opening quote: returns the decoded
content and the remainder after the closing quote. -/
def parseStr : List Char → Option (List Char × List Char)
  | [] => none
  | c :: cs =>
    if c = '"' then some ([], cs)
    else if c = '\\' then
      match cs with
      | [] => none
      | e :: cs2 =>
        match unescapeChar e with
        | some ch => (parseStr cs2).map (fun p => (ch :: p.1, p.2))
        | none => none
    else (parseStr cs).map (fun p => (c :: p.1, p.2))

/-- JSON integer token: optional minus sign and a digit run. -/
def parseIntTok (cs : List Char) : Option (Int × List Char) :=
  match cs with
  | '-' :: rest =>
    let ds := rest.takeWhile isDigitc
    if ds = [] then none else some (-(natOfDigits ds 0 : Int), rest.drop ds.length)
  | _ =>
    let ds := cs.takeWhile isDigitc
    if ds = [] then none else some ((natOfDigits ds 0 : Int), cs.drop ds.length)

mutual

/-- JSON value parser (fuel-indexed recursive descent). -/
def parseVal : Nat → List Char → Option (JsonVal × List Char)
  | 0, _ => none
  | f + 1, cs =>
    let t := skipWs cs
    match t with
    | [] => none
    | c :: rest =>
      if c = '"' then (parseStr rest).map (fun p => (JsonVal.str p.1, p.2))
      else if c = lbrace then parseObjBody f rest
      else if c = '[' then parseArrBody f rest
      else if lstartsWith ("true".data) t then some (.bool true, t.drop 4)
      else if lstartsWith ("false".data) t then some (.bool false, t.drop 5)
      else if lstartsWith ("null".data) t then some (.null, t.drop 4)
      else (parseIntTok t).map (fun p => (JsonVal.num p.1, p.2))

/-- Object body after the opening brace. -/
def parseObjBody : Nat → List Char → Option (JsonVal × List Char)
  | 0, _ => none
  | f + 1, cs =>
    let t := skipWs cs
    if t.head? = some rbrace then some (.obj [], t.tail)
    else parseObjRest f t []

/-- Non-empty object member list; members land in a CPython dict, hence
`dictUpd` (later duplicate keys overwrite in place). -/
def parseObjRest : Nat → List Char → List (List Char × JsonVal) → Option (JsonVal × List Char)
  | 0, _, _ => none
  | f + 1, cs, acc =>
    match skipWs cs with
    | c :: rest =>
      if c = '"' then
        match parseStr rest with
        | some (key, rest2) =>
          match skipWs rest2 with
          | ':' :: rest3 =>
            match parseVal f rest3 with
            | some (v, rest4) =>
              match skipWs rest4 with
              | c2 :: rest5 =>
                if c2 = ',' then parseObjRest f rest5 (dictUpd acc key v)
                else if c2 = rbrace then some (.obj (dictUpd acc key v), rest5)
                else none
              | [] => none
            | none => none
          | _ => none
        | none => none
      else none
    | [] => none

/-- Array body after the opening bracket. -/
def parseArrBody : Nat → List Char → Option (JsonVal × List Char)
  | 0, _ => none
  | f + 1, cs =>
    let t := skipWs cs
    if t.head? = some ']' then some (.arr [], t.tail)
    else parseArrRest f t []

/-- Non-empty array element list. -/
def parseArrRest : Nat → List Char → List JsonVal → Option (JsonVal × List Char)
  | 0, _, _ => none
  | f + 1, cs, acc =>
    match parseVal f cs with
    | some (v, rest) =>
      match skipWs rest with
      | c :: rest2 =>
        if c = ',' then parseArrRest f rest2 (acc ++ [v])
        else if c = ']' then some (.arr (acc ++ [v]), rest2)
        else none
      | [] => none
    | none => none
end

/-- Model of `json.loads`: decode one value and reject trailing
non-whitespace (Python's "Extra data" error); the fuel bound exceeds any
possible nesting depth of the input. -/
def json_loads (cs : List Char) : Option JsonVal :=
  match parseVal (cs.length * 2 + 8) cs with
  | some (v, rest) => if skipWs rest = [] then some v else none
  | none => none

/-- The substring `response_text[start:end]` cut out by
`parse_json_response` (classifier.py lines 212-216). -/
def jsonSlice (t : List Char) : List Char :=
  pySlice t (pyFind t lbrace) (pyRfind t rbrace + 1)

/-- Result of `parse_json_response`: either the decoded JSON value
returned as-is, or the error dictionary
`{"error": ..., "raw_response": response_text}`; `errdict` records the
`raw_response` field (the `error` message text is exception formatting,
external to the repository). -/
inductive ParseResult where
  | ok (j : JsonVal)
  | errdict (raw : List Char)

/-- `parse_json_response` (classifier.py lines 210-219).  `start` is
`find('{')`, `end` is `rfind('}') + 1`; the guard raises (and the
handler returns the error dict) when `start == -1 or end == -1`; then
the slice is decoded, any decode failure again producing the error
dict carrying the raw text. -/
def parse_json_response (t : List Char) : ParseResult :=
  if pyFind t lbrace = -1 ∨ pyRfind t rbrace + 1 = -1 then .errdict t
  else
    match json_loads (jsonSlice t) with
    | some j => .ok j
    | none => .errdict t

/-- Whether a `ParseResult` is the error dictionary. -/
def isErrDict : ParseResult → Bool
  | .ok _ => false
  | .errdict _ => true

/-! ## Content Locator (classifier.py lines 130-156) -/

/-- `os.path.join` for two components as used by the locator. -/
def pjoin (a b : List Char) : List Char :=
  if b.head? = some '/' then b
  else if a = [] then b
  else if a.getLast? = some '/' then a ++ b
  else a ++ '/' :: b

/-- `read_file_content` (classifier.py lines 130-156).  `fs` models the
filesystem (`os.path.exists` plus `open(...).read()` as one partial
map), `docsDir` is `config.get("docs_dir")` from the freshly loaded
YAML config (`none` when the key is absent, defaulting to `"docs"`),
`base` is `os.path.dirname(config_path)`, and the three candidates are
tried in the source's order; exhaustion raises `FileNotFoundError`,
modelled as `.error filePath`. -/
def read_file_content (fs : List Char → Option (List Char)) (docsDir : Option (List Char))
    (base cloneDir filePath : List Char) : Except (List Char) (List Char) :=
  let dd := docsDir.getD ("docs".data)
  match fs (pjoin (pjoin base dd) filePath) with
  | some c => .ok c
  | none =>
    match fs (pjoin base filePath) with
    | some c => .ok c
    | none =>
      match fs (pjoin cloneDir filePath) with
      | some c => .ok c
      | none => .error filePath

/-! ## Classification Dispatcher, hosted backend (classifier.py 158-186) -/

/-- `truncate_content` (classifier.py lines 158-159):
`content[:max_chars] if len(content) > max_chars else content`. -/
def truncate_content (content : List Char) (maxChars : Nat) : List Char :=
  if content.length > maxChars then content.take maxChars else content

/-- Outcome of one `openai.ChatCompletion.create` attempt together with
the extraction `response["choices"][0]["message"]["content"]`: either
the returned text, or the text of the exception raised. -/
inductive ApiOutcome where
  | ok (content : List Char)
  | err (msg : List Char)

/-- One sleep performed by the retry loop: either the captured
`([\d.]+)` group of the server-suggested wait, or the fixed default
`retry_delay = 2` seconds. -/
inductive WaitEvt where
  | parsedWait (digits : List Char)
  | defaultWait

/-- Result of `send_to_openai` together with the sequence of sleeps it
performed: `ret` is a normal return (`None` or the response text),
`raise` is an uncaught exception escaping the function -- which happens
exactly when `float(m.group(1))` is applied to a captured group that is
not a valid float literal. -/
inductive SendOut where
  | ret (r : Option (List Char)) (waits : List WaitEvt)
  | raise (badRun : List Char) (waits : List WaitEvt)

/-- The substring tested by `"Rate limit reached" in error_str`. -/
def rateLimitNeedle : List Char := "Rate limit reached".data

/-- The literal part of the regex `Please try again in ([\d.]+)s`. -/
def tryAgainLit : List Char := "Please try again in ".data

/-- Character class `[\d.]`. -/
def isDigitDot (c : Char) : Bool := isDigitc c || c = '.'

/-- Attempt the regex `Please try again in ([\d.]+)s` at the head of
`cs`.  The greedy group takes the maximal `[\d.]` run; backtracking
cannot help, since a shortened run is followed by a `[\d.]` character,
never by `s` -- so the match succeeds exactly when the maximal run is
non-empty and immediately followed by `s`. -/
def matchTryAgainAt (cs : List Char) : Option (List Char) :=
  if lstartsWith tryAgainLit cs then
    let rest := cs.drop tryAgainLit.length
    let run := rest.takeWhile isDigitDot
    if run = [] then none
    else if (rest.drop run.length).head? = some 's' then some run
    else none
  else none

/-- `re.search(r"Please try again in ([\d.]+)s", error_str)`: leftmost
matching position wins; returns the captured group. -/
def reSearchTryAgain : List Char → Option (List Char)
  | [] => none
  | c :: cs =>
    match matchTryAgainAt (c :: cs) with
    | some r => some r
    | none => reSearchTryAgain cs

/-- Whether Python's `float` accepts a `[\d.]+` run: at least one digit
and at most one dot. -/
def floatOk (run : List Char) : Bool := run.any isDigitc && run.count '.' ≤ 1

/-- The sleep the handler performs for a rate-limit error message:
`float(m.group(1)) if m else retry_delay`. -/
def waitOf : ApiOutcome → WaitEvt
  | .err m =>
    match reSearchTryAgain m with
    | some run => .parsedWait run
    | none => .defaultWait
  | .ok _ => .defaultWait

/-- Whether an attempt outcome enters the rate-limit branch
(`"Rate limit reached" in error_str`). -/
def isRL : ApiOutcome → Bool
  | .err m => hasSub rateLimitNeedle m
  | .ok _ => false

/-- Whether the handler's `float` conversion succeeds on this outcome
(vacuously true when there is no captured group or no error). -/
def waitValid : ApiOutcome → Bool
  | .err m =>
    match reSearchTryAgain m with
    | some run => floatOk run
    | none => true
  | .ok _ => true

/-- The sleeps performed for `k` consecutive rate-limited attempts
starting at attempt index `start`. -/
def waitsOf (env : Nat → ApiOutcome) : Nat → Nat → List WaitEvt
  | _, 0 => []
  | start, k + 1 => waitOf (env start) :: waitsOf env (start + 1) k

/-- The `while retries < max_retries` loop of `send_to_openai`
(classifier.py lines 161-186).  `env n` is the outcome of the `n`-th
API attempt; `fuel` is `max_retries - retries`, so the loop exits with
`None` at fuel `0` ("Max retries reached"). -/
def sendFrom (env : Nat → ApiOutcome) : Nat → Nat → List WaitEvt → SendOut
  | 0, _, log => .ret none log
  | fuel + 1, retries, log =>
    match env retries with
    | .ok c => .ret (some c) log
    | .err m =>
      if hasSub rateLimitNeedle m then
        match reSearchTryAgain m with
        | some run =>
          if floatOk run then
            sendFrom env fuel (retries + 1) (log ++ [.parsedWait run])
          else .raise run log
        | none => sendFrom env fuel (retries + 1) (log ++ [.defaultWait])
      else .ret none log

/-- `send_to_openai` (classifier.py lines 161-186): `retries = 0`,
`retry_delay = 2`, `max_retries = 5`. -/
def send_to_openai (env : Nat → ApiOutcome) : SendOut := sendFrom env 5 0 []

/-! ## Pipeline Coordinator (classifier.py lines 246-266) -/

/-- Effect environment of the per-document loop in `main`: `locate n f`
is the attempt to read file `f` during loop iteration `n` (re-loading
the YAML config and searching the candidate roots; `.error` is a raised
exception, e.g. `FileNotFoundError`), and `dispatch n c` is
`send_request` applied to the prompt built from the truncated content
`c` (`.ok none` is a `None` response, `.error` an exception escaping
the dispatcher, e.g. the `float` conversion error of the hosted
backend). -/
structure Env where
  locate : Nat → List Char → Except (List Char) (List Char)
  dispatch : Nat → List Char → Except (List Char) (Option (List Char))

/-- One value of the `results` dict: a parsed response, the `None`
recorded when no response was obtained, or the `f"Error processing
file {file}: {e}"` string recorded by the per-document handler. -/
inductive Entry where
  | parsed (p : ParseResult)
  | noResponse
  | errEntry (msg : List Char)

/-- The body of `for file in nav_files` (classifier.py lines 247-265):
locate, truncate, dispatch, parse; any exception from a stage is caught
by the surrounding `except` and recorded as the error entry. -/
def processOne (env : Env) (maxChars : Nat) (n : Nat) (file : List Char) : Entry :=
  match env.locate n file with
  | .error e => .errEntry e
  | .ok content =>
    match env.dispatch n (truncate_content content maxChars) with
    | .error e => .errEntry e
    | .ok none => .noResponse
    | .ok (some raw) => .parsed (parse_json_response raw)

/-- The driver loop of `main`: `n` numbers the iterations, `results` is
the accumulated dict. -/
def runLoop (env : Env) (maxChars : Nat) :
    Nat → List (List Char) → List (List Char × Entry) → List (List Char × Entry)
  | _, [], results => results
  | n, f :: fs, results =>
    runLoop env maxChars (n + 1) fs (dictUpd results f (processOne env maxChars n f))

/-- `results` as printed at the end of `main` for navigation list
`files`. -/
def runMain (env : Env) (maxChars : Nat) (files : List (List Char)) :
    List (List Char × Entry) :=
  runLoop env maxChars 0 files []

/-! ## Concrete inputs used by closed theorems and witnesses -/

/-- A navigation tree whose first mapping entry is an external link and
whose second entry is a plain document path. -/
def navC1 : Nav :=
  .list [.dict [("Docs".data, .str ("https://example.com".data)),
                ("Guide".data, .str ("guide.md".data))]]

/-- The raw model output of the round-trip property (spec section 8);
the braces of the embedded JSON payload are written via their code
points. -/
def c7raw : List Char :=
  ("Sure! \x7b\"dominant\": \"tutorial\", \"explanation\":10,\"tutorial\":70,\"how_to\":10,\"reference\":10\x7d  -- let me know if you need more.").data

/-- A rate-limit error text whose suggested wait `..` is not a valid
float literal. -/
def badRLMsg : List Char := ("Rate limit reached. Please try again in ..s").data

/-- A rate-limit error text with a well-formed suggested wait. -/
def okRLMsg : List Char := ("Rate limit reached. Please try again in 2.5s").data

/-- A concrete attempt environment: every attempt is rate-limited with
a well-formed suggested wait. -/
def envRL : Nat → ApiOutcome := fun _ => .err okRLMsg

/-- A concrete coordinator environment: locating fails on the first
loop iteration and succeeds afterwards, dispatch always answers with an
empty JSON object. -/
def env0 : Env :=
  ⟨fun n _ => if n = 0 then .error ("boom".data) else .ok ("text".data),
   fun _ _ => .ok (some ("\x7b\x7d".data))⟩

/-- A concrete filesystem containing the same file under candidate
root 1 and candidate root 2 with different contents. -/
def fs0 : List Char → Option (List Char) :=
  fun p =>
    if p = ("b/docs/a.md".data) then some ("one".data)
    else if p = ("b/a.md".data) then some ("two".data)
    else none

/-! ## Helper lemmas -/

theorem pyFindAux_of_not_mem (cs : List Char) (ch : Char) :
    ∀ i : Int, ch ∉ cs → pyFindAux cs ch i = -1 := by
  induction cs with
  | nil => intro i _; rfl
  | cons c cs ih =>
    intro i h
    have hc : c ≠ ch := fun he => h (he ▸ List.mem_cons_self c cs)
    have hm : ch ∉ cs := fun hm => h (List.mem_cons_of_mem c hm)
    simp [pyFindAux, hc, ih (i + 1) hm]

theorem pyFindAux_of_mem (cs : List Char) (ch : Char) :
    ∀ i : Int, ch ∈ cs → 0 ≤ i → pyFindAux cs ch i ≠ -1 := by
  induction cs with
  | nil => intro i h; cases h
  | cons c cs ih =>
    intro i h hi
    by_cases hc : c = ch
    · simp [pyFindAux, hc]; omega
    · have hm : ch ∈ cs := by
        rcases List.mem_cons.mp h with h1 | h2
        · exact absurd h1.symm hc
        · exact h2
      simp [pyFindAux, hc]
      exact ih (i + 1) hm (by omega)

theorem pyRfindAux_of_not_mem (cs : List Char) (ch : Char) :
    ∀ (i best : Int), ch ∉ cs → pyRfindAux cs ch i best = best := by
  induction cs with
  | nil => intro i best _; rfl
  | cons c cs ih =>
    intro i best h
    have hc : c ≠ ch := fun he => h (he ▸ List.mem_cons_self c cs)
    have hm : ch ∉ cs := fun hm => h (List.mem_cons_of_mem c hm)
    simp [pyRfindAux, hc, ih (i + 1) best hm]

theorem pyFind_of_not_mem (cs : List Char) (ch : Char) (h : ch ∉ cs) :
    pyFind cs ch = -1 :=
  pyFindAux_of_not_mem cs ch 0 h

theorem pyFind_of_mem (cs : List Char) (ch : Char) (h : ch ∈ cs) :
    pyFind cs ch ≠ -1 :=
  pyFindAux_of_mem cs ch 0 h (by omega)

theorem pyRfind_of_not_mem (cs : List Char) (ch : Char) (h : ch ∉ cs) :
    pyRfind cs ch = -1 :=
  pyRfindAux_of_not_mem cs ch 0 (-1) h

theorem jsonSlice_of_no_rbrace (t : List Char) (h : rbrace ∉ t) : jsonSlice t = [] := by
  unfold jsonSlice pySlice
  rw [pyRfind_of_not_mem t rbrace h]
  norm_num

theorem json_loads_nil : json_loads [] = none := rfl

/-- Claim C9: `parse_json_response` is total and, when the text has a
`{` but no `}` at all, the explicit missing-brace check does not fire
(`rfind` returns `-1`, so `end` is `0`), the slice is empty, decoding it
fails, and the error dictionary carrying the raw text is returned. -/
theorem parse_json_response_no_close_brace (t : List Char)
    (h1 : lbrace ∈ t) (h2 : rbrace ∉ t) :
    pyRfind t rbrace = -1 ∧ jsonSlice t = [] ∧
      ¬(pyFind t lbrace = -1 ∨ pyRfind t rbrace + 1 = -1) ∧
      parse_json_response t = .errdict t := by
  have hr : pyRfind t rbrace = -1 := pyRfind_of_not_mem t rbrace h2
  have hf : pyFind t lbrace ≠ -1 := pyFind_of_mem t lbrace h1
  have hsl : jsonSlice t = [] := jsonSlice_of_no_rbrace t h2
  have hguard : ¬(pyFind t lbrace = -1 ∨ pyRfind t rbrace + 1 = -1) := by
    rw [hr]; simp [hf]
  refine ⟨hr, hsl, hguard, ?_⟩
  unfold parse_json_response
  rw [if_neg hguard, hsl, json_loads_nil]

/-- Witness for C9 at the concrete input `a{b`. -/
theorem parse_json_response_no_close_brace_witness :
    lbrace ∈ ['a', lbrace, 'b'] ∧ rbrace ∉ ['a', lbrace, 'b'] ∧
      parse_json_response ['a', lbrace, 'b'] = .errdict ['a', lbrace, 'b'] :=
  ⟨by decide, by decide,
    (parse_json_response_no_close_brace ['a', lbrace, 'b'] (by decide) (by decide)).2.2.2⟩

theorem pyRfindAux_ge (cs : List Char) (ch : Char) :
    ∀ i best : Int, -1 ≤ best → 0 ≤ i → -1 ≤ pyRfindAux cs ch i best := by
  induction cs with
  | nil => intro i best hb _; exact hb
  | cons c cs ih =>
    intro i best hb hi
    simp only [pyRfindAux]
    apply ih (i + 1)
    · by_cases hc : c = ch <;> simp [hc] <;> omega
    · omega

theorem pyRfind_ge (cs : List Char) (ch : Char) : -1 ≤ pyRfind cs ch :=
  pyRfindAux_ge cs ch 0 (-1) (by omega) (by omega)

/-- Claim C3 (amended): for every raw text, if there is no opening
brace, or the brace-delimited slice fails to decode, the result is the
error dictionary carrying the raw text; when the slice decodes, the
decoded value is returned as-is (no required-key validation); the
interpreter is total, always returning one of these two shapes. -/
theorem parse_json_response_failure_modes (t : List Char) :
    (lbrace ∉ t → parse_json_response t = .errdict t) ∧
      (json_loads (jsonSlice t) = none → parse_json_response t = .errdict t) ∧
      (∀ j, lbrace ∈ t → json_loads (jsonSlice t) = some j →
        parse_json_response t = .ok j) ∧
      (parse_json_response t = .errdict t ∨ ∃ j, parse_json_response t = .ok j) := by
  refine ⟨?_, ?_, ?_, ?_⟩
  · intro h
    unfold parse_json_response
    rw [if_pos (Or.inl (pyFind_of_not_mem t lbrace h))]
  · intro h
    unfold parse_json_response
    by_cases hg : pyFind t lbrace = -1 ∨ pyRfind t rbrace + 1 = -1
    · rw [if_pos hg]
    · rw [if_neg hg, h]
  · intro j h hj
    have hguard : ¬(pyFind t lbrace = -1 ∨ pyRfind t rbrace + 1 = -1) := by
      rintro (h1 | h2)
      · exact pyFind_of_mem t lbrace h h1
      · have := pyRfind_ge t rbrace
        omega
    unfold parse_json_response
    rw [if_neg hguard, hj]
  · unfold parse_json_response
    by_cases hg : pyFind t lbrace = -1 ∨ pyRfind t rbrace + 1 = -1
    · rw [if_pos hg]; exact Or.inl rfl
    · rw [if_neg hg]
      cases hj : json_loads (jsonSlice t) with
      | none => exact Or.inl rfl
      | some j => exact Or.inr ⟨j, rfl⟩

/-- Witness for C3's theorem at a brace-free input. -/
theorem parse_json_response_failure_modes_witness :
    lbrace ∉ ("no json here".data) ∧
      parse_json_response ("no json here".data) = .errdict ("no json here".data) :=
  ⟨by decide, (parse_json_response_failure_modes ("no json here".data)).1 (by decide)⟩

/-- Counterexample to C3 as stated: the raw text consisting of the two
braces decodes to the empty object, the required classification keys
are absent, and yet the result is the decoded object, not the error
dictionary. -/
theorem parse_json_response_keyless_decode_accepted :
    parse_json_response ("\x7b\x7d".data) = .ok (.obj []) ∧
      isErrDict (parse_json_response ("\x7b\x7d".data)) = false :=
  ⟨rfl, rfl⟩

set_option maxRecDepth 100000

/-- Claim C7: interpreting the conversationally wrapped model output
yields the decoded classification object with `dominant` equal to
`tutorial` and the four percentages 10, 70, 10, 10 exactly as given. -/
theorem parse_json_response_wrapped_payload :
    parse_json_response c7raw =
      .ok (.obj [("dominant".data, .str ("tutorial".data)),
                 ("explanation".data, .num 10),
                 ("tutorial".data, .num 70),
                 ("how_to".data, .num 10),
                 ("reference".data, .num 10)]) := rfl

/-- Claim C1 (code bug): on a mapping node whose first entry is an
external link, `extract_files` returns from the whole mapping and drops
the accepted leaf `guide.md` that follows, while the resolver described
by the spec (and by the function's own docstring, "Ignores any URLs")
keeps it. -/
theorem extract_files_drops_entries_after_external_link :
    extract_files navC1 = [] ∧ specResolveNavigation navC1 = [("guide.md".data)] := by
  decide

theorem takeWhile_until_hash (p frag : List Char) (h : ('#') ∉ p) :
    (p ++ '#' :: frag).takeWhile (fun c => c != '#') = p := by
  induction p with
  | nil => simp
  | cons c cs ih =>
    have hc : c ≠ '#' := fun he => h (he ▸ List.mem_cons_self c cs)
    have hm : ('#') ∉ cs := fun hm => h (List.mem_cons_of_mem c hm)
    have hb : (c != '#') = true := by simp [hc]
    simp [List.takeWhile, hb, ih hm]

/-- Claim C6: a non-external string navigation value consisting of a
hash-free path, a `#`, and a fragment resolves to the path with the
fragment stripped. -/
theorem extract_files_strips_fragment (label p frag : List Char)
    (h1 : ('#') ∉ p) (h2 : isExternal (p ++ '#' :: frag) = false) :
    extract_files (.dict [(label, .str (p ++ '#' :: frag))]) = [p] := by
  simp [extract_files, extractDict, h2, stripFrag, takeWhile_until_hash p frag h1]

/-- Witness for C6 at `guide.md#setup`. -/
theorem extract_files_strips_fragment_witness :
    ('#') ∉ ("guide.md".data) ∧
      isExternal ("guide.md".data ++ '#' :: ("setup".data)) = false ∧
      extract_files (.dict [("Guide".data, .str ("guide.md".data ++ '#' :: ("setup".data)))]) =
        [("guide.md".data)] :=
  ⟨by decide, by decide,
    extract_files_strips_fragment ("Guide".data) ("guide.md".data) ("setup".data)
      (by decide) (by decide)⟩

/-- Claim C8: truncation keeps the whole content when it fits the
budget and otherwise keeps exactly the budget-length prefix; the result
never exceeds the budget in length. -/
theorem truncate_content_bounds (c : List Char) (m : Nat) :
    (truncate_content c m).length = min c.length m ∧
      (c.length ≤ m → truncate_content c m = c) ∧
      (m < c.length → truncate_content c m = c.take m) := by
  unfold truncate_content
  refine ⟨?_, ?_, ?_⟩
  · split <;> simp [List.length_take] <;> omega
  · intro h; rw [if_neg (by omega)]
  · intro h; rw [if_pos (by omega)]

/-- Witness for C8 on both sides of the budget. -/
theorem truncate_content_bounds_witness :
    (3 < ("abcde".data).length ∧ truncate_content ("abcde".data) 3 = ("abcde".data).take 3) ∧
      (("ab".data).length ≤ 3 ∧ truncate_content ("ab".data) 3 = ("ab".data)) :=
  ⟨⟨by decide, (truncate_content_bounds ("abcde".data) 3).2.2 (by decide)⟩,
   ⟨by decide, (truncate_content_bounds ("ab".data) 3).2.1 (by decide)⟩⟩

/-- Claim C5: the three candidate roots are tried in the fixed order
docs-root first, config-adjacent second, clone directory third; the
first existing path's content wins (in particular root 1 beats root 2),
and when none exists the locator fails with the file-not-found error. -/
theorem read_file_content_precedence (fs : List Char → Option (List Char))
    (docsDir : Option (List Char)) (base cloneDir f : List Char) :
    (∀ v, fs (pjoin (pjoin base (docsDir.getD ("docs".data))) f) = some v →
      read_file_content fs docsDir base cloneDir f = .ok v) ∧
      (∀ v w, fs (pjoin (pjoin base (docsDir.getD ("docs".data))) f) = some v →
        fs (pjoin base f) = some w →
        read_file_content fs docsDir base cloneDir f = .ok v) ∧
      (fs (pjoin (pjoin base (docsDir.getD ("docs".data))) f) = none →
        ∀ v, fs (pjoin base f) = some v →
          read_file_content fs docsDir base cloneDir f = .ok v) ∧
      (fs (pjoin (pjoin base (docsDir.getD ("docs".data))) f) = none →
        fs (pjoin base f) = none →
        ∀ v, fs (pjoin cloneDir f) = some v →
          read_file_content fs docsDir base cloneDir f = .ok v) ∧
      (fs (pjoin (pjoin base (docsDir.getD ("docs".data))) f) = none →
        fs (pjoin base f) = none → fs (pjoin cloneDir f) = none →
        read_file_content fs docsDir base cloneDir f = .error f) := by
  refine ⟨?_, ?_, ?_, ?_, ?_⟩ <;> intros <;> simp_all [read_file_content]

/-- Witness for C5: the file exists under roots 1 and 2 with different
contents and root 1 wins. -/
theorem read_file_content_precedence_witness :
    fs0 (pjoin (pjoin ("b".data) ((none : Option (List Char)).getD ("docs".data))) ("a.md".data)) =
        some ("one".data) ∧
      fs0 (pjoin ("b".data) ("a.md".data)) = some ("two".data) ∧
      read_file_content fs0 none ("b".data) ("c".data) ("a.md".data) = .ok ("one".data) :=
  ⟨by decide, by decide,
    (read_file_content_precedence fs0 none ("b".data) ("c".data) ("a.md".data)).2.1
      ("one".data) ("two".data) (by decide) (by decide)⟩

theorem sendFrom_steps (env : Nat → ApiOutcome) (k : Nat) :
    ∀ (fuel retries : Nat) (log : List WaitEvt),
      (∀ n, retries ≤ n → n < retries + k → isRL (env n) = true ∧ waitValid (env n) = true) →
      sendFrom env (fuel + k) retries log =
        sendFrom env fuel (retries + k) (log ++ waitsOf env retries k) := by
  induction k with
  | zero => intro fuel retries log _; simp [waitsOf]
  | succ k ih =>
    intro fuel retries log h
    have h0 := h retries (le_refl _) (by omega)
    cases henv : env retries with
    | ok c =>
      exfalso
      have := h0.1
      rw [henv] at this
      simp [isRL] at this
    | err m =>
      have hrl : hasSub rateLimitNeedle m = true := by
        have := h0.1
        rw [henv] at this
        simpa [isRL] using this
      have hfu : fuel + (k + 1) = (fuel + k) + 1 := by omega
      rw [hfu]
      simp only [sendFrom, henv, hrl, if_pos]
      have hw : waitsOf env retries (k + 1) =
          waitOf (env retries) :: waitsOf env (retries + 1) k := rfl
      have hnext : ∀ n, retries + 1 ≤ n → n < retries + 1 + k →
          isRL (env n) = true ∧ waitValid (env n) = true := by
        intro n h1 h2
        exact h n (by omega) (by omega)
      cases hs : reSearchTryAgain m with
      | none =>
        show sendFrom env (fuel + k) (retries + 1) (log ++ [WaitEvt.defaultWait]) =
          sendFrom env fuel (retries + (k + 1)) (log ++ waitsOf env retries (k + 1))
        rw [ih fuel (retries + 1) (log ++ [WaitEvt.defaultWait]) hnext]
        have harr : retries + 1 + k = retries + (k + 1) := by omega
        rw [harr, hw]
        have hwo : waitOf (env retries) = .defaultWait := by
          rw [henv]; simp [waitOf, hs]
        rw [hwo, List.append_assoc]
        rfl
      | some run =>
        have hok : floatOk run = true := by
          have := h0.2
          rw [henv] at this
          simpa [waitValid, hs] using this
        show (if floatOk run = true then
            sendFrom env (fuel + k) (retries + 1) (log ++ [WaitEvt.parsedWait run])
          else SendOut.raise run log) =
          sendFrom env fuel (retries + (k + 1)) (log ++ waitsOf env retries (k + 1))
        rw [if_pos hok]
        rw [ih fuel (retries + 1) (log ++ [WaitEvt.parsedWait run]) hnext]
        have harr : retries + 1 + k = retries + (k + 1) := by omega
        rw [harr, hw]
        have hwo : waitOf (env retries) = .parsedWait run := by
          rw [henv]; simp [waitOf, hs]
        rw [hwo, List.append_assoc]
        rfl

/-- Claim C4 (amended): provided every captured wait string of the
rate-limited attempts is a well-formed float (the conjunct
`waitValid`), the hosted backend sleeps once per rate-limited attempt
for exactly the parsed duration (default when the pattern is absent)
with no extra growth, makes at most 5 attempts, returns `None` without
raising after exhausting them, returns `None` immediately on any
non-rate-limit error, and returns the response text on a successful
attempt. -/
theorem send_to_openai_retry_policy (env : Nat → ApiOutcome) :
    ((∀ n, n < 5 → isRL (env n) = true ∧ waitValid (env n) = true) →
      send_to_openai env = .ret none (waitsOf env 0 5)) ∧
      (∀ k m, k < 5 →
        (∀ n, n < k → isRL (env n) = true ∧ waitValid (env n) = true) →
        env k = .err m → hasSub rateLimitNeedle m = false →
        send_to_openai env = .ret none (waitsOf env 0 k)) ∧
      (∀ k c, k < 5 →
        (∀ n, n < k → isRL (env n) = true ∧ waitValid (env n) = true) →
        env k = .ok c → send_to_openai env = .ret (some c) (waitsOf env 0 k)) := by
  refine ⟨?_, ?_, ?_⟩
  · intro h
    have := sendFrom_steps env 5 0 0 [] (by intro n h1 h2; exact h n (by omega))
    simpa [send_to_openai, sendFrom] using this
  · intro k m hk h henv hno
    obtain ⟨d, hd⟩ : ∃ d, 5 = (d + 1) + k := ⟨4 - k, by omega⟩
    have := sendFrom_steps env k (d + 1) 0 [] (by intro n h1 h2; exact h n (by omega))
    unfold send_to_openai
    rw [hd, this]
    simp only [Nat.zero_add, List.nil_append, sendFrom, henv, hno]
    rfl
  · intro k c hk h henv
    obtain ⟨d, hd⟩ : ∃ d, 5 = (d + 1) + k := ⟨4 - k, by omega⟩
    have := sendFrom_steps env k (d + 1) 0 [] (by intro n h1 h2; exact h n (by omega))
    unfold send_to_openai
    rw [hd, this]
    simp only [Nat.zero_add, List.nil_append, sendFrom, henv]

/-- Witness for C4's theorem: five rate-limited attempts with the
parsable suggestion `2.5`, ending in `None` after five parsed sleeps. -/
theorem send_to_openai_retry_policy_witness :
    (∀ n, n < 5 → isRL (envRL n) = true ∧ waitValid (envRL n) = true) ∧
      send_to_openai envRL = .ret none (waitsOf envRL 0 5) :=
  ⟨by decide, (send_to_openai_retry_policy envRL).1 (by decide)⟩

/-- Counterexample to C4 as stated: a rate-limit error whose suggested
wait `..` matches the regex but is not a valid float literal makes the
conversion raise on the first attempt -- the call is neither retried
nor resolved to `None`, an exception escapes `send_to_openai`. -/
theorem send_to_openai_raises_on_malformed_wait :
    send_to_openai (fun _ => .err badRLMsg) = .raise ['.', '.'] [] ∧
      isRL (.err badRLMsg) = true :=
  ⟨rfl, rfl⟩

theorem countKey_eq_countP {α : Type} [DecidableEq α] {β : Type}
    (d : List (α × β)) (k : α) :
    countKey d k = d.countP (fun p => decide (p.1 = k)) :=
  (List.countP_eq_length_filter _ _).symm

theorem countKey_map_upd {α : Type} [DecidableEq α] {β : Type}
    (d : List (α × β)) (k k' : α) (v : β) :
    countKey (d.map (fun p => if p.1 = k then (k, v) else p)) k' = countKey d k' := by
  rw [countKey_eq_countP, countKey_eq_countP, List.countP_map]
  apply List.countP_congr
  intro p _
  by_cases h : p.1 = k <;> simp [h, Function.comp]

theorem countKey_append {α : Type} [DecidableEq α] {β : Type}
    (d1 d2 : List (α × β)) (k : α) :
    countKey (d1 ++ d2) k = countKey d1 k + countKey d2 k := by
  simp [countKey, List.filter_append]

theorem countKey_pos_of_hasKey {α : Type} [DecidableEq α] {β : Type}
    (d : List (α × β)) (k : α)
    (h : d.any (fun p => decide (p.1 = k)) = true) : 0 < countKey d k := by
  rw [countKey_eq_countP]
  rw [List.any_eq_true] at h
  obtain ⟨p, hp, hk⟩ := h
  exact List.countP_pos_iff.mpr ⟨p, hp, hk⟩

theorem countKey_zero_of_not_hasKey {α : Type} [DecidableEq α] {β : Type}
    (d : List (α × β)) (k : α)
    (h : d.any (fun p => decide (p.1 = k)) = false) : countKey d k = 0 := by
  rw [countKey_eq_countP]
  rw [List.any_eq_false] at h
  apply List.countP_eq_zero.mpr
  intro p hp
  exact h p hp

theorem countKey_dictUpd_self {α : Type} [DecidableEq α] {β : Type}
    (d : List (α × β)) (k : α) (v : β) (h : countKey d k ≤ 1) :
    countKey (dictUpd d k v) k = 1 := by
  unfold dictUpd
  by_cases hk : d.any (fun p => decide (p.1 = k)) = true
  · rw [if_pos hk, countKey_map_upd]
    have := countKey_pos_of_hasKey d k hk
    omega
  · rw [if_neg hk, countKey_append,
      countKey_zero_of_not_hasKey d k (by rwa [Bool.not_eq_true] at hk)]
    simp [countKey]

theorem countKey_dictUpd_other {α : Type} [DecidableEq α] {β : Type}
    (d : List (α × β)) (k k' : α) (v : β) (h : k' ≠ k) :
    countKey (dictUpd d k v) k' = countKey d k' := by
  unfold dictUpd
  by_cases hk : d.any (fun p => decide (p.1 = k)) = true
  · rw [if_pos hk, countKey_map_upd]
  · rw [if_neg hk, countKey_append]
    simp [countKey, List.filter, Ne.symm h]

theorem wf_dictUpd {α : Type} [DecidableEq α] {β : Type}
    (d : List (α × β)) (k : α) (v : β) (h : ∀ k0, countKey d k0 ≤ 1) :
    ∀ k0, countKey (dictUpd d k v) k0 ≤ 1 := by
  intro k0
  by_cases hk : k0 = k
  · subst hk
    rw [countKey_dictUpd_self d k0 v (h k0)]
  · rw [countKey_dictUpd_other d k k0 v hk]
    exact h k0

theorem runLoop_countKey (env : Env) (mc : Nat) (files : List (List Char)) :
    ∀ (n : Nat) (d : List (List Char × Entry)) (f : List Char),
      (∀ k0, countKey d k0 ≤ 1) →
      countKey (runLoop env mc n files d) f = if f ∈ files then 1 else countKey d f := by
  induction files with
  | nil => intro n d f _; simp [runLoop]
  | cons x xs ih =>
    intro n d f hwf
    simp only [runLoop]
    rw [ih (n + 1) _ f (wf_dictUpd _ _ _ hwf)]
    by_cases hfx : f ∈ xs
    · simp [hfx, List.mem_cons]
    · rw [if_neg hfx]
      by_cases hfeq : f = x
      · subst hfeq
        rw [countKey_dictUpd_self _ _ _ (hwf f)]
        simp [List.mem_cons]
      · rw [countKey_dictUpd_other _ _ _ _ hfeq]
        simp [List.mem_cons, hfx, hfeq]

/-- Claim C2: every reference of the navigation list has exactly one
entry in the final results dict, for every behaviour of the locating
and dispatching stages -- including ones that raise everywhere. -/
theorem run_report_one_entry_per_reference (env : Env) (mc : Nat)
    (files : List (List Char)) (f : List Char) (h : f ∈ files) :
    countKey (runMain env mc files) f = 1 := by
  have := runLoop_countKey env mc files 0 [] f (by intro k0; simp [countKey])
  rw [if_pos h] at this
  exact this

/-- Witness for C2 with an environment whose first location attempt
raises. -/
theorem run_report_one_entry_per_reference_witness :
    ("a.md".data) ∈ [("a.md".data), ("b.md".data)] ∧
      countKey (runMain env0 15000 [("a.md".data), ("b.md".data)]) ("a.md".data) = 1 :=
  ⟨by decide,
    run_report_one_entry_per_reference env0 15000 [("a.md".data), ("b.md".data)]
      ("a.md".data) (by decide)⟩

theorem dlookup_map_upd_mem {α : Type} [DecidableEq α] {β : Type}
    (d : List (α × β)) (k : α) (v : β) (h : ∃ p ∈ d, p.1 = k) :
    dlookup (d.map (fun p => if p.1 = k then (k, v) else p)) k = some v := by
  induction d with
  | nil => obtain ⟨p, hp, _⟩ := h; cases hp
  | cons q d ih =>
    obtain ⟨a, b⟩ := q
    by_cases h1 : a = k
    · simp only [List.map_cons, h1, if_pos]
      simp [dlookup]
    · simp only [List.map_cons, if_neg h1]
      have h2 : ∃ p ∈ d, p.1 = k := by
        obtain ⟨p, hp, hk⟩ := h
        rcases List.mem_cons.mp hp with h3 | h3
        · exact absurd (by rw [h3] at hk; exact hk) h1
        · exact ⟨p, h3, hk⟩
      simp only [dlookup, if_neg (fun he : k = a => h1 he.symm)]
      exact ih h2

theorem dlookup_append_absent {α : Type} [DecidableEq α] {β : Type}
    (d : List (α × β)) (k : α) (v : β) (h : ∀ p ∈ d, p.1 ≠ k) :
    dlookup (d ++ [(k, v)]) k = some v := by
  induction d with
  | nil => simp [dlookup]
  | cons q d ih =>
    obtain ⟨a, b⟩ := q
    have h1 : a ≠ k := h (a, b) (List.mem_cons_self _ _)
    simp only [List.cons_append, dlookup, if_neg (fun he : k = a => h1 he.symm)]
    exact ih (fun p hp => h p (List.mem_cons_of_mem _ hp))

theorem dlookup_dictUpd_self {α : Type} [DecidableEq α] {β : Type}
    (d : List (α × β)) (k : α) (v : β) :
    dlookup (dictUpd d k v) k = some v := by
  unfold dictUpd
  by_cases hk : d.any (fun p => decide (p.1 = k)) = true
  · rw [if_pos hk]
    rw [List.any_eq_true] at hk
    obtain ⟨p, hp, hpk⟩ := hk
    exact dlookup_map_upd_mem d k v ⟨p, hp, by simpa using hpk⟩
  · rw [if_neg hk]
    rw [Bool.not_eq_true, List.any_eq_false] at hk
    exact dlookup_append_absent d k v (fun p hp => by simpa using hk p hp)

theorem dlookup_map_upd_other {α : Type} [DecidableEq α] {β : Type}
    (d : List (α × β)) (k k' : α) (v : β) (h : k' ≠ k) :
    dlookup (d.map (fun p => if p.1 = k then (k, v) else p)) k' = dlookup d k' := by
  induction d with
  | nil => rfl
  | cons q d ih =>
    obtain ⟨a, b⟩ := q
    by_cases h1 : a = k
    · have hh : (if ((a, b) : α × β).1 = k then (k, v) else (a, b)) = (k, v) := if_pos h1
      rw [List.map_cons, hh]
      show (if k' = k then some v
          else dlookup (List.map (fun p => if p.1 = k then (k, v) else p) d) k') =
        dlookup ((a, b) :: d) k'
      rw [if_neg h, ih]
      show dlookup d k' = if k' = a then some b else dlookup d k'
      rw [if_neg (fun he : k' = a => h (he.trans h1))]
    · have hh : (if ((a, b) : α × β).1 = k then (k, v) else (a, b)) = (a, b) := if_neg h1
      rw [List.map_cons, hh]
      show (if k' = a then some b
          else dlookup (List.map (fun p => if p.1 = k then (k, v) else p) d) k') =
        (if k' = a then some b else dlookup d k')
      rw [ih]

theorem dlookup_append_other {α : Type} [DecidableEq α] {β : Type}
    (d : List (α × β)) (k k' : α) (v : β) (h : k' ≠ k) :
    dlookup (d ++ [(k, v)]) k' = dlookup d k' := by
  induction d with
  | nil => simp [dlookup, h]
  | cons q d ih =>
    obtain ⟨a, b⟩ := q
    simp [dlookup, ih]

theorem dlookup_dictUpd_other {α : Type} [DecidableEq α] {β : Type}
    (d : List (α × β)) (k k' : α) (v : β) (h : k' ≠ k) :
    dlookup (dictUpd d k v) k' = dlookup d k' := by
  unfold dictUpd
  by_cases hk : d.any (fun p => decide (p.1 = k)) = true
  · rw [if_pos hk]; exact dlookup_map_upd_other d k k' v h
  · rw [if_neg hk]; exact dlookup_append_other d k k' v h

theorem runLoop_dlookup_not_mem (env : Env) (mc : Nat) (files : List (List Char)) :
    ∀ (n : Nat) (d : List (List Char × Entry)) (f : List Char), f ∉ files →
      dlookup (runLoop env mc n files d) f = dlookup d f := by
  induction files with
  | nil => intro n d f _; rfl
  | cons x xs ih =>
    intro n d f h
    have hx : f ≠ x := fun he => h (he ▸ List.mem_cons_self x xs)
    have hm : f ∉ xs := fun hm => h (List.mem_cons_of_mem x hm)
    simp only [runLoop]
    rw [ih (n + 1) _ f hm, dlookup_dictUpd_other _ _ _ _ hx]

theorem runLoop_dlookup_last (env : Env) (mc : Nat) (files : List (List Char)) :
    ∀ (n : Nat) (d : List (List Char × Entry)) (f : List Char), f ∈ files →
      dlookup (runLoop env mc n files d) f =
        some (processOne env mc (n + lastIdxOf files f) f) := by
  induction files with
  | nil => intro n d f h; cases h
  | cons x xs ih =>
    intro n d f h
    simp only [runLoop]
    by_cases hfx : f ∈ xs
    · rw [ih (n + 1) _ f hfx]
      have hl : lastIdxOf (x :: xs) f = lastIdxOf xs f + 1 := by
        simp [lastIdxOf, hfx]
      rw [hl]
      have harith : n + 1 + lastIdxOf xs f = n + (lastIdxOf xs f + 1) := by omega
      rw [harith]
    · have hfex : f = x := by
        rcases List.mem_cons.mp h with h1 | h2
        · exact h1
        · exact absurd h2 hfx
      subst hfex
      rw [runLoop_dlookup_not_mem env mc xs (n + 1) _ f hfx,
        dlookup_dictUpd_self]
      have hl : lastIdxOf (f :: xs) f = 0 := by simp [lastIdxOf, hfx]
      rw [hl, Nat.add_zero]

/-- Claim C10: a reference occurring several times in the navigation
list is processed at each occurrence, but the results dict keeps a
single entry for it, holding the entry computed at the last occurrence
(`d[file] = ...` overwrites). -/
theorem run_report_last_occurrence (env : Env) (mc : Nat)
    (files : List (List Char)) (f : List Char) (h : f ∈ files) :
    dlookup (runMain env mc files) f =
      some (processOne env mc (lastIdxOf files f) f) := by
  have := runLoop_dlookup_last env mc files 0 [] f h
  simpa [runMain] using this

/-- Witness for C10 on a navigation list naming the same file twice:
the surviving entry is the one computed at iteration 1, the last
occurrence. -/
theorem run_report_last_occurrence_witness :
    ("a.md".data) ∈ [("a.md".data), ("a.md".data)] ∧
      lastIdxOf [("a.md".data), ("a.md".data)] ("a.md".data) = 1 ∧
      dlookup (runMain env0 15000 [("a.md".data), ("a.md".data)]) ("a.md".data) =
        some (processOne env0 15000
          (lastIdxOf [("a.md".data), ("a.md".data)] ("a.md".data)) ("a.md".data)) :=
  ⟨by decide, by decide,
    run_report_last_occurrence env0 15000 [("a.md".data), ("a.md".data)]
      ("a.md".data) (by decide)⟩
